import Mathlib

/-!
Verification of the MedAiTools ingestion / sync / enrichment core.

This file gives a shallow embedding, in Lean 4, of the storage and
scraping operations of the repository (`PersistentStorage.py`,
`PGMedrXivScraper.py`, `MedrXivScraper.py`) and proves or refutes the
frozen specification claims about them.

Modelling conventions:
* the PostgreSQL table `medrxiv` is a list of rows paired with a
  next-serial counter; SQL `ON CONFLICT` clauses become explicit
  find-and-replace on the list;
* `ILIKE '%kw%'` is modelled as case-insensitive substring containment
  (keywords are assumed free of the SQL wildcard characters `%` and `_`,
  which never occur in the repository's keyword searches);
* dates in `YYYY-MM-DD` format are modelled as day numbers (`Nat`);
  string comparison of such dates agrees with numeric comparison; where
  the dynamic type of a date value matters (`datetime.date` versus string
  versus `None` in the sync start-date logic), a small sum type records
  it and `TypeError`-raising calls return an explicit result type;
* network calls are modelled by an explicit transport function
  (`Nat → CatalogResponse` for the paginated catalog,
  `String → Option String` for PDF downloads) plus a counter of GETs.
-/

namespace MedAiTools

/-- One publication record as delivered by the medRxiv API and stored in
the `medrxiv` table (columns from `PublicationStorage.upsert` in
`PersistentStorage.py`).  `version` is numeric; all other columns are text. -/
structure RawRecord where
  doi : String
  version : Nat
  title : String
  authors : String
  author_corresponding : String
  author_corresponding_institution : String
  date : String
  type : String
  license : String
  category : String
  jatsxml : String
  abstract : String
  published : String
  server : String
deriving Repr, DecidableEq

/-- A stored row of the `medrxiv` table: serial primary key plus record. -/
structure PubRow where
  id : Nat
  record : RawRecord
deriving Repr, DecidableEq

/-- The `medrxiv` table: stored rows plus the next serial id. -/
structure MedrxivTable where
  rows : List PubRow
  nextId : Nat
deriving Repr, DecidableEq

/-- The `UNIQUE (doi, version)` conflict test of the `medrxiv` table. -/
def keyMatches (r : RawRecord) (row : PubRow) : Bool :=
  row.record.doi == r.doi && row.record.version == r.version

/-- The `DO UPDATE SET` action applied to one stored row: a row under the
conflicting key gets every non-key column overwritten with the new input
(the key columns are equal by the conflict condition), other rows are left
alone. -/
def upsertReplace (r : RawRecord) (q : PubRow) : PubRow :=
  if keyMatches r q then { q with record := r } else q

/-- `PublicationStorage.upsert` (`PersistentStorage.py`):
`INSERT INTO medrxiv ... ON CONFLICT (doi, version) DO UPDATE SET
title = EXCLUDED.title, ..., server = EXCLUDED.server RETURNING id`.
On conflict the existing row is updated and its id returned; otherwise a
fresh row is appended under the next serial id. -/
def upsert (st : MedrxivTable) (r : RawRecord) : Nat × MedrxivTable :=
  match st.rows.find? (keyMatches r) with
  | some row =>
      (row.id, { st with rows := st.rows.map (upsertReplace r) })
  | none =>
      (st.nextId,
       { rows := st.rows ++ [{ id := st.nextId, record := r }],
         nextId := st.nextId + 1 })

/-- Database well-formedness: the `UNIQUE (doi, version)` constraint —
no two stored rows share the key. -/
def WFTable (st : MedrxivTable) : Prop :=
  st.rows.Pairwise fun a b =>
    ¬(a.record.doi = b.record.doi ∧ a.record.version = b.record.version)

instance (st : MedrxivTable) : Decidable (WFTable st) := by
  unfold WFTable; infer_instance

/-- A row of the `summaries` table: serial id, publication foreign key,
summary-method foreign key, text. -/
structure SummaryRow where
  id : Nat
  id_publication : Nat
  id_summarymethod : Nat
  text : String
deriving Repr, DecidableEq

/-- The `summaries` table with its serial counter. -/
structure SummariesTable where
  rows : List SummaryRow
  nextId : Nat
deriving Repr, DecidableEq

/-- `PublicationStorage.save_summary` (`PersistentStorage.py`):
`INSERT INTO summaries (text, id_publication, id_summarymethod)
VALUES (%s, %s, %s) RETURNING id;` — a plain insert, with no conflict
handling: a new row is appended on every call. -/
def save_summary (st : SummariesTable) (summary : String)
    (id_publication : Nat) (id_summarymethod : Nat := 1) :
    Nat × SummariesTable :=
  (st.nextId,
   { rows := st.rows ++
       [{ id := st.nextId, id_publication := id_publication,
          id_summarymethod := id_summarymethod, text := summary }],
     nextId := st.nextId + 1 })

/-- Whether the `summaries` table holds a row for the given
(publication, summary-method) pair. -/
def hasSummaryRow (st : SummariesTable) (id_publication id_summarymethod : Nat) : Bool :=
  st.rows.any fun s =>
    s.id_publication == id_publication && s.id_summarymethod == id_summarymethod

/-- Number of `summaries` rows held for a (publication, method) pair. -/
def summaryRowCount (st : SummariesTable) (id_publication id_summarymethod : Nat) : Nat :=
  (st.rows.filter fun s =>
    s.id_publication == id_publication && s.id_summarymethod == id_summarymethod).length

/-- `PublicationStorage.missing_summaries` (`PersistentStorage.py`):
`SELECT m.* FROM medrxiv m LEFT JOIN summaries s ON m.id = s.id_publication
AND s.id_summarymethod = %s WHERE s.id IS NULL;` — every `medrxiv` row
(of any version) without a summary row for the given method. -/
def missing_summaries (m : MedrxivTable) (s : SummariesTable)
    (id_summarymethod : Nat := 1) : List PubRow :=
  m.rows.filter fun row => !hasSummaryRow s row.id id_summarymethod

/-- The "current revision" notion used by the spec and by the repository's
max-version views (`LatestVersions` CTE in `PGMedrXivScraper.py`): a row is
current when no stored row with the same doi has a higher version. -/
def currentRevision (m : MedrxivTable) (row : PubRow) : Bool :=
  m.rows.all fun q =>
    q.record.doi != row.record.doi || q.record.version ≤ row.record.version

/-! ### Keyword search (`PublicationStorage.search_for`) -/

/-- Case folding of one string to a character list, as performed by SQL
`ILIKE` comparison. -/
def lowerChars (s : String) : List Char :=
  s.data.map Char.toLower

/-- Executable "starts with" test on character lists. -/
def startsWith : List Char → List Char → Bool
  | [], _ => true
  | _ :: _, [] => false
  | a :: as, b :: bs => a == b && startsWith as bs

/-- Executable substring-containment test on character lists. -/
def containsSub (needle : List Char) : List Char → Bool
  | [] => startsWith needle []
  | c :: rest => startsWith needle (c :: rest) || containsSub needle rest

/-- Python's `str.strip()` on a character list: leading and trailing
whitespace removed. -/
def stripChars (s : List Char) : List Char :=
  ((s.dropWhile Char.isWhitespace).reverse.dropWhile Char.isWhitespace).reverse

/-- One `field ILIKE '%kw%'` comparison of `search_for`: the keyword is
stripped (`k.strip()` in the source) and matched case-insensitively as a
substring of the field.  Stripping is applied to the case-folded keyword,
which agrees with folding the stripped keyword since case folding fixes
whitespace. -/
def ilikeKeyword (field : String) (kw : String) : Bool :=
  containsSub (stripChars (lowerChars kw)) (lowerChars field)

/-- `field ILIKE ALL (ARRAY['%k1%', ...])` on a non-NULL field: every
keyword pattern must match. -/
def ilikeAllField (field : String) (kws : List String) : Bool :=
  kws.all (ilikeKeyword field)

/-- `field ILIKE ANY (ARRAY['%k1%', ...])` on a non-NULL field: some
keyword pattern must match. -/
def ilikeAnyField (field : String) (kws : List String) : Bool :=
  kws.any (ilikeKeyword field)

/-- `NULL`-aware `ILIKE ALL`: SQL yields TRUE on an empty array (no
comparison is made) and NULL — not TRUE — on a NULL field with a
non-empty array. -/
def ilikeAllOpt (field : Option String) (kws : List String) : Bool :=
  match field with
  | some f => ilikeAllField f kws
  | none => kws.isEmpty

/-- `NULL`-aware `ILIKE ANY`: FALSE on an empty array, and never TRUE on a
NULL field. -/
def ilikeAnyOpt (field : Option String) (kws : List String) : Bool :=
  match field with
  | some f => ilikeAnyField f kws
  | none => false

/-- Proposition-level reading of one keyword match: the stripped,
case-folded keyword occurs as a contiguous substring of the case-folded
field. -/
def ciSub (kw field : String) : Prop :=
  ∃ l t, lowerChars field = l ++ (stripChars (lowerChars kw) ++ t)

/-- The `ALL`/`ANY` mode parameter of `search_for`
(`any_or_all='ALL'` by default in the source). -/
inductive MatchMode where
  | all
  | any
deriving Repr, DecidableEq

/-- A row of the `newest_revision_with_fulltext_columns` view queried by
`search_for`: one current-revision publication with its searchable columns.
`summary` comes from an outer join and may be NULL. -/
structure SearchRow where
  title : String
  abstract : String
  summary : Option String
deriving Repr, DecidableEq

/-- The WHERE clause of `PublicationStorage.search_for`
(`PersistentStorage.py`), for the keywords-only call (no date filter, no
limit): `title ILIKE {mode}(ARRAY[...]) OR abstract ILIKE {mode}(ARRAY[...])
OR summary ILIKE {mode}(ARRAY[...])`.  Note that each disjunct applies the
whole keyword array to a single column. -/
def searchRowMatches (mode : MatchMode) (kws : List String) (p : SearchRow) : Bool :=
  match mode with
  | .all =>
      ilikeAllField p.title kws || ilikeAllField p.abstract kws ||
        ilikeAllOpt p.summary kws
  | .any =>
      ilikeAnyField p.title kws || ilikeAnyField p.abstract kws ||
        ilikeAnyOpt p.summary kws

/-- `PublicationStorage.search_for` restricted to its keyword filtering:
the view rows satisfying the WHERE clause, in view order (the source
additionally orders by date descending, which does not affect membership). -/
def search_for (view : List SearchRow) (kws : List String) (mode : MatchMode) :
    List SearchRow :=
  view.filter (searchRowMatches mode kws)

/-- Modelled from the spec (claim wording, for comparison with
`searchRowMatches`): under `ALL`, "every keyword is a case-insensitive
substring of at least one of title, abstract, or summary (different
keywords may match different fields)". -/
def claimMatchesAll (kws : List String) (p : SearchRow) : Bool :=
  kws.all fun k =>
    ilikeKeyword p.title k || ilikeKeyword p.abstract k ||
      (match p.summary with | some s => ilikeKeyword s k | none => false)

/-! ### Paginated catalog fetch (`fetch_from_medrXiv` / `fetch_from_server`) -/

/-- The message block of one catalog API response:
`count` is the number of items in this page, `total` the number of items
for the whole date range. -/
structure CatalogMsg where
  count : Nat
  total : Nat
deriving Repr, DecidableEq

/-- One catalog API response, as consumed by the page loops: HTTP status
success flag, the `collection` payload (record contents are irrelevant to
pagination, so records are abstract tokens), and `messages[0]` when the
`messages` list is non-empty. -/
structure CatalogResponse (α : Type) where
  ok : Bool
  collection : List α
  messages : Option CatalogMsg
deriving Repr

/-- The page loop of `MedrXivScraper.fetch_from_medrXiv`
(`PGMedrXivScraper.py`): starting from cursor 0, request a page, abort on a
non-success status, extend the accumulated list, then break unless
`cursor + len(all_publications) < messages[0].total` — note that the
accumulated length, not the page length, is added to the cursor for the
test — else advance the cursor by the page length.  `server` maps a cursor
to the response received for it; `fuel` bounds the iteration so the
function is total (the source loop is `while True`). -/
def fetch_from_medrXiv_pages (server : Nat → CatalogResponse α) :
    Nat → Nat → List α → List α
  | 0, _, acc => acc
  | fuel + 1, cursor, acc =>
      let r := server cursor
      if !r.ok then acc
      else
        let acc' := acc ++ r.collection
        match r.messages with
        | none => acc'
        | some msg =>
            if cursor + acc'.length ≥ msg.total then acc'
            else fetch_from_medrXiv_pages server fuel (cursor + r.collection.length) acc'

/-- The page loop of the legacy `MedrXivScraper.fetch_from_server`
(`MedrXivScraper.py`): same shape, except that the termination test reads
`messages[0].count` — the per-page item count — where the total item count
is required: `if cursor + len(publications) >= total_items: break`. -/
def fetch_from_server_pages (server : Nat → CatalogResponse α) :
    Nat → Nat → List α → List α
  | 0, _, acc => acc
  | fuel + 1, cursor, acc =>
      let r := server cursor
      if !r.ok then acc
      else
        let acc' := acc ++ r.collection
        match r.messages with
        | none => acc'
        | some msg =>
            if cursor + r.collection.length ≥ msg.count then acc'
            else fetch_from_server_pages server fuel (cursor + r.collection.length) acc'

/-- Modelled from the spec (claim wording, for comparison): "continue while
`cursor + pageSize < totalItems`" — the loop advances the cursor by the
page size and keeps requesting while items remain. -/
def claimPageLoop (server : Nat → CatalogResponse α) :
    Nat → Nat → List α → List α
  | 0, _, acc => acc
  | fuel + 1, cursor, acc =>
      let r := server cursor
      if !r.ok then acc
      else
        let acc' := acc ++ r.collection
        match r.messages with
        | none => acc'
        | some msg =>
            if cursor + r.collection.length ≥ msg.total then acc'
            else claimPageLoop server fuel (cursor + r.collection.length) acc'

/-! ### Incremental sync start date (`fetch_medrxiv_publications`,
`fetch_latest_publications`) -/

/-- A Python value holding a date, with the dynamic type made explicit:
either a `YYYY-MM-DD` string, a `datetime.date` object (psycopg delivers
the `SELECT MAX(TO_DATE(...))` result of `latest_stored` as the latter),
or Python `None`.  Days are abstracted to numbers. -/
inductive PyDateVal where
  | str (day : Nat)
  | date (day : Nat)
  | pynone
deriving Repr, DecidableEq

/-- Result of a Python call that may raise `TypeError`. -/
inductive PyResult (α : Type) where
  | ok (val : α)
  | typeError
deriving Repr, DecidableEq

/-- `datetime.strptime(v, "%Y-%m-%d")`: parses a string; raises
`TypeError` when handed a `datetime.date` or `None` instead of a
string. -/
def strptime : PyDateVal → PyResult Nat
  | .str d => .ok d
  | .date _ => .typeError
  | .pynone => .typeError

/-- Python `!=` between a date-holding value and a date string: operands
of different types are never equal, strings compare by content. -/
def pyNeqStr (v : PyDateVal) (t : Nat) : Bool :=
  match v with
  | .str d => d != t
  | .date _ => true
  | .pynone => true

/-- The date-range decision of `MedrXivScraper.fetch_medrxiv_publications`
(`PGMedrXivScraper.py`): `latest_stored = self.db.latest_stored()` is a
`datetime.date` when the store is non-empty and `None` otherwise; `if not
latest_stored: latest_stored = from_date` substitutes the caller's string
on an empty store; the guard
`datetime.strptime(to_date, ...).date() > datetime.strptime(latest_stored, ...).date()`
parses both operands — raising `TypeError` when `latest_stored` is still
the `datetime.date` from the database — and a fetch for
`(latest_stored, to_date)` is issued only when the comparison runs and is
true.  Returns the issued range, `none` for no fetch, or the raised
`TypeError`. -/
def fetch_medrxiv_publications_range (latest_stored_db : Option Nat)
    (from_date to_date : Nat) : PyResult (Option (Nat × Nat)) :=
  let latest : PyDateVal :=
    match latest_stored_db with
    | some d => .date d
    | none => .str from_date
  match strptime (.str to_date), strptime latest with
  | .ok t, .ok start => .ok (if t > start then some (start, to_date) else none)
  | _, _ => .typeError

/-- The fetch decision of `MedrXivScraper.fetch_latest_publications`
(`PGMedrXivScraper.py`) on its `days == 0` path: without a caller-supplied
`start_date` the start becomes the `datetime.date` returned by
`latest_stored()` (or `None` on an empty store); a fetch for
`(start_date, today)` is attempted whenever `start_date != today` — a
comparison that is always true when `start_date` is not a string — and
inside the fetch the date object is interpolated into the request URL in
its `YYYY-MM-DD` form, so the effective start day of a non-empty-store run
is the latest stored day.  Returns the attempted fetch range, or `none`
when no fetch is attempted. -/
def fetch_latest_publications_fetch (latest_stored_db : Option Nat)
    (start_override : Option Nat) (today : Nat) : Option (PyDateVal × Nat) :=
  let start : PyDateVal :=
    match start_override with
    | some s => .str s
    | none =>
      match latest_stored_db with
      | some d => .date d
      | none => .pynone
  if pyNeqStr start today then some (start, today) else none

/-! ### PDF asset fetch (`fetch_pdf_from_medrXiv`) -/

/-- A row of the `fulltext` table: publication foreign key (UNIQUE) and
stored PDF filename. -/
structure FulltextRow where
  id_publication : Nat
  pdf_filename : String
deriving Repr, DecidableEq

/-- The `INSERT INTO fulltext ... ON CONFLICT (id_publication) DO UPDATE
SET pdf_filename = EXCLUDED.pdf_filename` statement executed by
`fetch_pdf_from_medrXiv`. -/
def fulltextUpsert (rows : List FulltextRow) (id_publication : Nat)
    (pdf_filename : String) : List FulltextRow :=
  if rows.any (fun q => q.id_publication == id_publication) then
    rows.map fun q =>
      if q.id_publication == id_publication then
        { q with pdf_filename := pdf_filename } else q
  else
    rows ++ [{ id_publication := id_publication, pdf_filename := pdf_filename }]

/-- The doi and row id of a stored publication, as used by the PDF
fetcher. -/
structure PubRef where
  id : Nat
  doi : String
deriving Repr, DecidableEq

/-- `MedrXivScraper.get_pdf_url`: the deterministic URL template
`https://www.medrxiv.org/content/{doi}.full.pdf`. -/
def get_pdf_url (doi : String) : String :=
  "https://www.medrxiv.org/content/" ++ doi ++ ".full.pdf"

/-- The PDF filename derived from the sanitized doi:
`f"{doi.replace('/', '-')}.pdf"`. -/
def pdfName (doi : String) : String :=
  ⟨doi.data.map fun c => if c = '/' then '-' else c⟩ ++ ".pdf"

/-- `os.path.join(path, pdf_name)` for the fetcher's storage directory. -/
def pdfPath (dir doi : String) : String :=
  dir ++ "/" ++ pdfName doi

/-- The world visible to the PDF fetcher: the set of files on disk (full
paths), the `fulltext` table, and an instrumentation counter of network
GETs issued. -/
structure FetchState where
  files : List String
  fulltext : List FulltextRow
  getCount : Nat
deriving Repr, DecidableEq

/-- `MedrXivScraper.fetch_pdf_from_medrXiv` (`PGMedrXivScraper.py`):
if the target file does not exist, GET the PDF URL (`http` returns the
body on success, `none` on a non-success status or transport exception —
`raise_for_status` folds both into the `except` branch, which notifies and
returns `None` before any database write); when the file exists the
download is skipped.  In both non-failing cases, when `upsert` is set the
`fulltext` link row is inserted or updated, and the file path is
returned. -/
def fetch_pdf_from_medrXiv (http : String → Option String) (pub : PubRef)
    (dir : String) (st : FetchState) (upsertLink : Bool := true) :
    Option String × FetchState :=
  let path := pdfPath dir pub.doi
  if st.files.contains path then
    let st' := if upsertLink then
        { st with fulltext := fulltextUpsert st.fulltext pub.id (pdfName pub.doi) }
      else st
    (some path, st')
  else
    match http (get_pdf_url pub.doi) with
    | none => (none, { st with getCount := st.getCount + 1 })
    | some _ =>
        let st1 : FetchState :=
          { st with files := path :: st.files, getCount := st.getCount + 1 }
        let st2 := if upsertLink then
            { st1 with fulltext := fulltextUpsert st1.fulltext pub.id (pdfName pub.doi) }
          else st1
        (some path, st2)

/-! ### Enrichment stages (`MedrXivAssistant`) -/

/-- The publication dictionary as seen by the enrichment stages: the
abstract plus the optional artifact entries the stage guards inspect
(`'keywords' in publication and len(publication['keywords']) > 0`, and
likewise for `'summary'` and `'abstract_critique'`).  `none` models an
absent key; a `some` value models a present key with that content. -/
structure EnrichPub where
  id : Nat
  abstract : String
  summary : Option String
  keywords : Option (List String)
  abstract_critique : Option String
deriving Repr, DecidableEq

/-- `MedrXivAssistant.summarize` (`PGMedrXivScraper.py`): the
skip-if-present guard is commented out in the source, so the external
summarizer is called unconditionally; with `commit` set the result is
written through `save_summary`.  Returns the summary text, whether the
external processor was called, and the updated `summaries` table. -/
def summarize (ext : String → String) (p : EnrichPub) (sums : SummariesTable)
    (commit : Bool := true) (force : Bool := false) :
    String × Bool × SummariesTable :=
  let _ := force
  let summary := ext p.abstract
  (summary, true, if commit then (save_summary sums summary p.id 1).2 else sums)

/-- `MedrXivAssistant.extract_keywords` (`PGMedrXivScraper.py`), restricted
to its compute/skip behaviour: when the publication already carries a
non-empty `keywords` entry and `force` is false, the existing keywords are
returned with no external call; otherwise the external extractor runs.
Returns the keywords and whether the external processor was called. -/
def extract_keywords (ext : String → List String) (p : EnrichPub)
    (force : Bool := false) : List String × Bool :=
  match p.keywords with
  | some ks => if !ks.isEmpty && !force then (ks, false) else (ext p.abstract, true)
  | none => (ext p.abstract, true)

/-- `MedrXivAssistant.critique_study_abstract` (`PGMedrXivScraper.py`),
restricted to its compute/skip behaviour, with the same guard shape as
`extract_keywords` over the `abstract_critique` entry. -/
def critique_study_abstract (ext : String → String) (p : EnrichPub)
    (force : Bool := false) : String × Bool :=
  match p.abstract_critique with
  | some c => if !c.isEmpty && !force then (c, false) else (ext p.abstract, true)
  | none => (ext p.abstract, true)

/-! ### Batch deduplication (`exclude_duplicates`) -/

/-- The loop body of `MedrXivScraper.exclude_duplicates`
(`PGMedrXivScraper.py`): walk the batch keeping a record only when its doi
is not in the seen-set. -/
def excludeDuplicatesFrom (seen : List String) : List RawRecord → List RawRecord
  | [] => []
  | p :: rest =>
      if seen.contains p.doi then excludeDuplicatesFrom seen rest
      else p :: excludeDuplicatesFrom (p.doi :: seen) rest

/-- `MedrXivScraper.exclude_duplicates`: batch-local first-seen
deduplication by doi, starting from an empty seen-set. -/
def exclude_duplicates (publications : List RawRecord) : List RawRecord :=
  excludeDuplicatesFrom [] publications

/-! ### Concrete inputs used by counterexamples and witnesses -/

/-- A publication record with the given identity and content fields and
empty remaining columns. -/
def mkRecord (doi : String) (version : Nat) (title abstract : String) : RawRecord :=
  { doi := doi, version := version, title := title, authors := ""
    author_corresponding := "", author_corresponding_institution := ""
    date := "", type := "", license := "", category := "", jatsxml := ""
    abstract := abstract, published := "", server := "medrxiv" }

/-- An empty `medrxiv` table. -/
def emptyMedrxiv : MedrxivTable := { rows := [], nextId := 1 }

/-- An empty `summaries` table. -/
def emptySummaries : SummariesTable := { rows := [], nextId := 1 }

/-- The record of the spec's end-to-end scenario. -/
def demoRecord : RawRecord :=
  mkRecord "10.1101/2024.01.01.000001" 1 "A seeded record" "An abstract."

/-- A view row whose title holds one search keyword and whose abstract
holds the other. -/
def crossFieldRow : SearchRow :=
  { title := "Sepsis", abstract := "ICU", summary := none }

/-- A catalog server for one day with nine records, delivered in pages of
three, every response successful and carrying
`messages[0] = { count: 3, total: 9 }`. -/
def demoCatalogServer : Nat → CatalogResponse Nat := fun cursor =>
  { ok := true
    collection := if cursor < 9 then [cursor, cursor + 1, cursor + 2] else []
    messages := some { count := 3, total := 9 } }

/-- A non-current stored revision: version 1 of a doi that also has a
stored version 2. -/
def oldRevisionRow : PubRow := { id := 1, record := mkRecord "10.1101/x" 1 "old" "a" }

/-- The current revision of the same doi. -/
def newRevisionRow : PubRow := { id := 2, record := mkRecord "10.1101/x" 2 "new" "a" }

/-- A table holding two versions of one doi. -/
def twoVersionTable : MedrxivTable := { rows := [oldRevisionRow, newRevisionRow], nextId := 3 }

/-- A publication dictionary that already carries all three enrichment
artifacts, each non-empty. -/
def enrichedPub : EnrichPub :=
  { id := 1, abstract := "An abstract."
    summary := some "An existing summary."
    keywords := some ["sepsis"]
    abstract_critique := some "An existing critique." }

/-- A stub external summarizer. -/
def demoSummarizer : String → String := fun _ => "a fresh summary"

/-- A stub external keyword extractor. -/
def demoKeyworder : String → List String := fun _ => ["fresh"]

/-- A stub external critique generator. -/
def demoCritiquer : String → String := fun _ => "a fresh critique"

/-- A stored publication reference for the PDF fetcher. -/
def demoPubRef : PubRef := { id := 1, doi := "10.1101/2024.01.01.000001" }

/-- A fetcher world with no files, no link rows and no GETs issued. -/
def emptyFetchState : FetchState := { files := [], fulltext := [], getCount := 0 }

/-- A transport whose GETs always succeed. -/
def alwaysSucceed : String → Option String := fun _ => some "%PDF-1.4"

/-- A transport whose GETs always fail (non-success status or transport
exception). -/
def alwaysFail : String → Option String := fun _ => none

/-- A batch with two records sharing a doi but differing in content. -/
def demoBatch : List RawRecord :=
  [mkRecord "10.1101/a" 1 "first" "x", mkRecord "10.1101/b" 1 "other" "y",
   mkRecord "10.1101/a" 2 "second" "z"]

/-! ## Theorems -/

/-- C2 (counterexample): under `matchMode=ALL` the code does not implement
the claim's cross-field reading.  For keywords `["sepsis", "icu"]` and a
current-revision row whose title contains only "sepsis" and whose abstract
contains only "icu", the claim's predicate ("every keyword matches at least
one of the three fields, different keywords may match different fields")
holds, yet `search_for` returns nothing: each `ILIKE ALL` disjunct applies
the whole keyword array to a single column. -/
theorem search_all_single_field_cex :
    claimMatchesAll ["sepsis", "icu"] crossFieldRow = true ∧
    search_for [crossFieldRow] ["sepsis", "icu"] MatchMode.all = [] := by
  decide

/-- C3: the pagination termination test of
`MedrXivScraper.fetch_from_medrXiv` (`PGMedrXivScraper.py`) compares
`cursor + len(all_publications)` — the cursor plus the whole accumulated
list — against `total`, so on a day of nine records served in successful
pages of three it stops after the second page with six records; the legacy
`MedrXivScraper.fetch_from_server` (`MedrXivScraper.py`) reads
`messages[0]['count']` (the page size) where the total is required and
stops after the first page; the loop the claim describes (continue while
`cursor + pageSize < totalItems`) would collect all nine. -/
theorem catalog_loop_drops_records :
    (fetch_from_medrXiv_pages demoCatalogServer 10 0 []).length = 6 ∧
    (fetch_from_server_pages demoCatalogServer 10 0 []).length = 3 ∧
    (claimPageLoop demoCatalogServer 10 0 []).length = 9 := by
  decide

/-- C4 (counterexample): `missing_summaries` does not restrict to current
revisions.  With two stored versions of one doi and an empty `summaries`
table, the version-1 row — not the current revision — is yielded. -/
theorem missing_summaries_ignores_version_cex :
    oldRevisionRow ∈ missing_summaries twoVersionTable emptySummaries 1 ∧
    currentRevision twoVersionTable oldRevisionRow = false := by
  decide

/-- C5: `save_summary` is a plain `INSERT` with no conflict handling, so
running the summary stage with `commit=true` twice on the same publication
leaves two `summaries` rows for the (publication 1, method 1) pair. -/
theorem summarize_twice_duplicates_rows :
    summaryRowCount
      (summarize demoSummarizer enrichedPub
        (summarize demoSummarizer enrichedPub emptySummaries true false).2.2
        true false).2.2 1 1 = 2 := by
  decide

/-- C6: the three enrichment stages are not uniform.  On a publication
already carrying a non-empty summary, keywords and critique, with
`force=false`: `extract_keywords` and `critique_study_abstract` return the
existing artifact with no external call, but `summarize` — whose
skip-if-present guard is commented out in the source — still calls the
external summarizer (and discards the existing summary). -/
theorem summarize_skip_guard_disabled :
    enrichedPub.summary = some "An existing summary." ∧
    (summarize demoSummarizer enrichedPub emptySummaries false false).2.1 = true ∧
    (extract_keywords demoKeyworder enrichedPub false) = (["sepsis"], false) ∧
    (critique_study_abstract demoCritiquer enrichedPub false) =
      ("An existing critique.", false) := by
  decide

/-- C7: the two sync entry points against the claim.
`fetch_medrxiv_publications` raises `TypeError` on every non-empty-store
run — `latest_stored()` hands a `datetime.date` to `datetime.strptime` —
so its fetch decision never executes there (first conjunct, at latest
stored day 10 and end day 11); its empty-store branch does use the
caller-supplied default (second conjunct).  `fetch_latest_publications`
without an override always attempts the fetch from the latest stored day
— `start_date != today` compares a `datetime.date` against a string and
is always true — re-fetching the last stored day on every run, as the
claim states (third conjunct). -/
theorem sync_nonempty_store_raises :
    fetch_medrxiv_publications_range (some 10) 1 11 = PyResult.typeError ∧
    fetch_medrxiv_publications_range none 1 11 = PyResult.ok (some (1, 11)) ∧
    ∀ d today : Nat,
      fetch_latest_publications_fetch (some d) none today =
        some (PyDateVal.date d, today) := by
  refine ⟨rfl, rfl, fun d today => ?_⟩
  simp [fetch_latest_publications_fetch, pyNeqStr]

/-- The deduplicated batch is a sublist of the input, whatever the
seen-set. -/
theorem excludeDuplicatesFrom_sublist (seen : List String) (ps : List RawRecord) :
    List.Sublist (excludeDuplicatesFrom seen ps) ps := by
  induction ps generalizing seen with
  | nil => simp [excludeDuplicatesFrom]
  | cons p rest ih =>
    by_cases hc : seen.contains p.doi = true
    · rw [excludeDuplicatesFrom, if_pos hc]
      exact (ih seen).cons p
    · rw [excludeDuplicatesFrom, if_neg hc]
      exact (ih (p.doi :: seen)).cons₂ p

/-- Membership in the deduplicated batch: exactly the records that occur
at some position with no earlier occurrence of their doi, and whose doi is
not in the seen-set. -/
theorem mem_excludeDuplicatesFrom {r : RawRecord} (seen : List String)
    (ps : List RawRecord) :
    r ∈ excludeDuplicatesFrom seen ps ↔
      r.doi ∉ seen ∧
        ∃ l₁ l₂, ps = l₁ ++ r :: l₂ ∧ r.doi ∉ l₁.map RawRecord.doi := by
  induction ps generalizing seen with
  | nil =>
    simp only [excludeDuplicatesFrom, List.not_mem_nil, false_iff]
    rintro ⟨-, l₁, l₂, h, -⟩
    exact (List.append_ne_nil_of_right_ne_nil l₁ (List.cons_ne_nil r l₂)) h.symm
  | cons p rest ih =>
    by_cases hc : seen.contains p.doi = true
    · have hpseen : p.doi ∈ seen := by simpa using hc
      rw [excludeDuplicatesFrom, if_pos hc, ih seen]
      constructor
      · rintro ⟨hs, l₁, l₂, hsplit, hni⟩
        refine ⟨hs, p :: l₁, l₂, by simp [hsplit], ?_⟩
        simp only [List.map_cons, List.mem_cons, not_or]
        exact ⟨fun h => hs (h ▸ hpseen), hni⟩
      · rintro ⟨hs, l₁, l₂, hsplit, hni⟩
        cases l₁ with
        | nil =>
          simp only [List.nil_append, List.cons.injEq] at hsplit
          exact absurd (hsplit.1 ▸ hpseen) hs
        | cons a l₁' =>
          simp only [List.cons_append, List.cons.injEq] at hsplit
          simp only [List.map_cons, List.mem_cons, not_or] at hni
          exact ⟨hs, l₁', l₂, hsplit.2, hni.2⟩
    · have hpns : p.doi ∉ seen := fun h => hc (by simpa using h)
      rw [excludeDuplicatesFrom, if_neg hc, List.mem_cons, ih (p.doi :: seen)]
      constructor
      · rintro (rfl | ⟨hs, l₁, l₂, hsplit, hni⟩)
        · exact ⟨hpns, [], rest, rfl, by simp⟩
        · simp only [List.mem_cons, not_or] at hs
          refine ⟨hs.2, p :: l₁, l₂, by simp [hsplit], ?_⟩
          simp only [List.map_cons, List.mem_cons, not_or]
          exact ⟨hs.1, hni⟩
      · rintro ⟨hs, l₁, l₂, hsplit, hni⟩
        cases l₁ with
        | nil =>
          simp only [List.nil_append, List.cons.injEq] at hsplit
          exact Or.inl hsplit.1.symm
        | cons a l₁' =>
          simp only [List.cons_append, List.cons.injEq] at hsplit
          simp only [List.map_cons, List.mem_cons, not_or] at hni
          refine Or.inr ⟨?_, l₁', l₂, hsplit.2, hni.2⟩
          simp only [List.mem_cons, not_or]
          exact ⟨hsplit.1 ▸ hni.1, hs⟩

/-- The dois of the deduplicated batch are pairwise distinct and disjoint
from the seen-set. -/
theorem excludeDuplicatesFrom_nodup_dois (seen : List String) (ps : List RawRecord) :
    ((excludeDuplicatesFrom seen ps).map RawRecord.doi).Nodup ∧
      ∀ d ∈ (excludeDuplicatesFrom seen ps).map RawRecord.doi, d ∉ seen := by
  induction ps generalizing seen with
  | nil => simp [excludeDuplicatesFrom]
  | cons p rest ih =>
    by_cases hc : seen.contains p.doi = true
    · rw [excludeDuplicatesFrom, if_pos hc]
      exact ih seen
    · rw [excludeDuplicatesFrom, if_neg hc]
      have hpns : p.doi ∉ seen := fun h => hc (by simpa using h)
      obtain ⟨hnd, hni⟩ := ih (p.doi :: seen)
      refine ⟨?_, ?_⟩
      · rw [List.map_cons, List.nodup_cons]
        refine ⟨fun hmem => ?_, hnd⟩
        exact (hni p.doi hmem) (List.mem_cons_self p.doi seen)
      · intro d hd
        rw [List.map_cons, List.mem_cons] at hd
        rcases hd with rfl | hd
        · exact hpns
        · exact fun h => (hni d hd) (List.mem_cons_of_mem _ h)

/-- C10: `exclude_duplicates` keeps, in input order, exactly the records
whose doi has not occurred earlier in the batch — a sublist of the input
whose dois are pairwise distinct, containing precisely the records that
occur at a position preceded by no other occurrence of their doi.  The
function inspects only the batch (no store argument exists). -/
theorem exclude_duplicates_first_seen (ps : List RawRecord) :
    List.Sublist (exclude_duplicates ps) ps ∧
    ((exclude_duplicates ps).map RawRecord.doi).Nodup ∧
    ∀ r : RawRecord, r ∈ exclude_duplicates ps ↔
      ∃ l₁ l₂, ps = l₁ ++ r :: l₂ ∧ r.doi ∉ l₁.map RawRecord.doi := by
  refine ⟨excludeDuplicatesFrom_sublist [] ps,
    (excludeDuplicatesFrom_nodup_dois [] ps).1, fun r => ?_⟩
  simpa [exclude_duplicates] using mem_excludeDuplicatesFrom (r := r) [] ps

/-- C10 (witness): on a batch with two entries sharing a doi but differing
in content, the kept sequence is a sublist of the batch. -/
theorem exclude_duplicates_first_seen_witness :
    List.Sublist (exclude_duplicates demoBatch) demoBatch :=
  (exclude_duplicates_first_seen demoBatch).1

/-- A row holding the incoming record matches the incoming key. -/
theorem keyMatches_mk (r : RawRecord) (id : Nat) :
    keyMatches r { id := id, record := r } = true := by
  simp [keyMatches]

/-- The conflict update preserves the key-match status of every row. -/
theorem keyMatches_upsertReplace (r : RawRecord) (q : PubRow) :
    keyMatches r (upsertReplace r q) = keyMatches r q := by
  unfold upsertReplace
  by_cases h : keyMatches r q = true
  · rw [if_pos h, h]
    simp [keyMatches]
  · rw [if_neg h]

/-- The conflict update never changes a row's id. -/
theorem upsertReplace_id (r : RawRecord) (q : PubRow) :
    (upsertReplace r q).id = q.id := by
  unfold upsertReplace
  split <;> rfl

/-- A key-matching row's content becomes the incoming record. -/
theorem upsertReplace_record (r : RawRecord) (q : PubRow)
    (h : keyMatches r q = true) : (upsertReplace r q).record = r := by
  unfold upsertReplace
  rw [if_pos h]

/-- The conflict update is idempotent on rows. -/
theorem upsertReplace_idem (r : RawRecord) (q : PubRow) :
    upsertReplace r (upsertReplace r q) = upsertReplace r q := by
  by_cases h : keyMatches r q = true
  · have h1 : upsertReplace r q = { q with record := r } := by
      unfold upsertReplace
      rw [if_pos h]
    have h2 : keyMatches r ({ q with record := r } : PubRow) = true := by
      simp [keyMatches]
    rw [h1]
    unfold upsertReplace
    rw [if_pos h2]
  · have h1 : upsertReplace r q = q := by
      unfold upsertReplace
      rw [if_neg h]
    rw [h1, h1]

/-- Searching the conflict key after the conflict update finds the updated
image of whatever the search found before. -/
theorem find?_map_upsertReplace (r : RawRecord) (l : List PubRow) :
    (l.map (upsertReplace r)).find? (keyMatches r) =
      (l.find? (keyMatches r)).map (upsertReplace r) := by
  induction l with
  | nil => rfl
  | cons q t ih =>
    by_cases h : keyMatches r q = true
    · rw [List.map_cons,
        List.find?_cons_of_pos _ (by rw [keyMatches_upsertReplace]; exact h),
        List.find?_cons_of_pos _ h, Option.map_some']
    · rw [List.map_cons,
        List.find?_cons_of_neg _ (by rw [keyMatches_upsertReplace]; simpa using h),
        List.find?_cons_of_neg _ (by simpa using h), ih]

/-- When no row matches the key, the conflict update leaves the table
unchanged. -/
theorem map_upsertReplace_of_find?_none (r : RawRecord) (l : List PubRow)
    (h : l.find? (keyMatches r) = none) : l.map (upsertReplace r) = l := by
  rw [List.find?_eq_none] at h
  induction l with
  | nil => rfl
  | cons q t ih =>
    rw [List.map_cons, ih fun a ha => h a (List.mem_cons_of_mem q ha)]
    have hq : ¬ keyMatches r q = true := h q (List.mem_cons_self q t)
    rw [upsertReplace, if_neg hq]

/-- Filtering by the key commutes with the conflict update. -/
theorem filter_map_upsertReplace (r : RawRecord) (l : List PubRow) :
    (l.map (upsertReplace r)).filter (keyMatches r) =
      (l.filter (keyMatches r)).map (upsertReplace r) := by
  induction l with
  | nil => rfl
  | cons q t ih =>
    by_cases h : keyMatches r q = true
    · rw [List.map_cons,
        List.filter_cons_of_pos (by rw [keyMatches_upsertReplace]; exact h),
        List.filter_cons_of_pos h, List.map_cons, ih]
    · rw [List.map_cons,
        List.filter_cons_of_neg (by rw [keyMatches_upsertReplace]; simpa using h),
        List.filter_cons_of_neg (by simpa using h), ih]

/-- Under the `UNIQUE (doi, version)` constraint at most one stored row
matches any key. -/
theorem length_filter_keyMatches_le_one (r : RawRecord) (l : List PubRow)
    (h : l.Pairwise fun a b =>
      ¬(a.record.doi = b.record.doi ∧ a.record.version = b.record.version)) :
    (l.filter (keyMatches r)).length ≤ 1 := by
  induction l with
  | nil => simp
  | cons q t ih =>
    rw [List.pairwise_cons] at h
    by_cases hq : keyMatches r q = true
    · rw [List.filter_cons_of_pos hq]
      have ht : t.filter (keyMatches r) = [] := by
        rw [List.filter_eq_nil_iff]
        intro b hb hkb
        have h1 : q.record.doi = r.doi ∧ q.record.version = r.version := by
          simpa [keyMatches] using hq
        have h2 : b.record.doi = r.doi ∧ b.record.version = r.version := by
          simpa [keyMatches] using hkb
        exact h.1 b hb ⟨h1.1.trans h2.1.symm, h1.2.trans h2.2.symm⟩
      rw [ht]
      simp
    · rw [List.filter_cons_of_neg (by simpa using hq)]
      exact ih h.2

/-- C1: `upsert` is idempotent.  Starting from any store satisfying the
`UNIQUE (doi, version)` constraint, two `upsert` calls with the same record
return the same row id, leave exactly one stored row under the identity
`(r.doi, r.version)`, and that row's mutable columns equal the (second)
write's input. -/
theorem upsert_idempotent (st : MedrxivTable) (r : RawRecord) (hwf : WFTable st) :
    (upsert st r).1 = (upsert (upsert st r).2 r).1 ∧
    ((upsert (upsert st r).2 r).2.rows.filter (keyMatches r)).length = 1 ∧
    ∀ row ∈ (upsert (upsert st r).2 r).2.rows,
      keyMatches r row = true → row.record = r := by
  rcases hfind : st.rows.find? (keyMatches r) with _ | row
  · -- no conflict: the first call appends a fresh row, the second updates it
    have hnew : keyMatches r { id := st.nextId, record := r } = true := keyMatches_mk r st.nextId
    have h1 : upsert st r =
        (st.nextId,
         { rows := st.rows ++ [{ id := st.nextId, record := r }],
           nextId := st.nextId + 1 }) := by
      unfold upsert
      rw [hfind]
    have hfind2 : (st.rows ++ [({ id := st.nextId, record := r } : PubRow)]).find?
          (keyMatches r) = some { id := st.nextId, record := r } := by
      rw [List.find?_append, hfind, Option.none_or, List.find?_cons_of_pos _ hnew]
    have h2 : upsert (upsert st r).2 r =
        (st.nextId,
         { rows := (st.rows ++ [({ id := st.nextId, record := r } : PubRow)]).map
             (upsertReplace r),
           nextId := st.nextId + 1 }) := by
      rw [h1]
      unfold upsert
      rw [hfind2]
    have hrows : (st.rows ++ [({ id := st.nextId, record := r } : PubRow)]).map
          (upsertReplace r) =
        st.rows ++ [({ id := st.nextId, record := r } : PubRow)] := by
      rw [List.map_append, map_upsertReplace_of_find?_none r st.rows hfind]
      simp [upsertReplace, hnew]
    refine ⟨by rw [h2, h1], ?_, ?_⟩
    · rw [h2, hrows, List.filter_append,
        List.filter_eq_nil_iff.mpr (by simpa using List.find?_eq_none.mp hfind),
        List.filter_cons_of_pos hnew]
      simp
    · intro row' hmem hk
      rw [h2, hrows] at hmem
      rcases List.mem_append.mp hmem with hl | hr
      · exact absurd hk (List.find?_eq_none.mp hfind row' hl)
      · rw [List.mem_singleton.mp hr]
  · -- conflict: both calls update in place and return the stored id
    have hkey : keyMatches r row = true := List.find?_some hfind
    have hmem : row ∈ st.rows := List.mem_of_find?_eq_some hfind
    have h1 : upsert st r =
        (row.id, { st with rows := st.rows.map (upsertReplace r) }) := by
      unfold upsert
      rw [hfind]
    have hfind2 : (st.rows.map (upsertReplace r)).find? (keyMatches r) =
        some (upsertReplace r row) := by
      rw [find?_map_upsertReplace, hfind, Option.map_some']
    have h2 : upsert (upsert st r).2 r =
        ((upsertReplace r row).id,
         { rows := (st.rows.map (upsertReplace r)).map (upsertReplace r),
           nextId := st.nextId }) := by
      rw [h1]
      unfold upsert
      rw [hfind2]
    have hrows : (st.rows.map (upsertReplace r)).map (upsertReplace r) =
        st.rows.map (upsertReplace r) := by
      rw [List.map_map]
      exact List.map_congr_left fun q _ => upsertReplace_idem r q
    refine ⟨?_, ?_, ?_⟩
    · rw [h2, h1, upsertReplace_id]
    · rw [h2, hrows, filter_map_upsertReplace, List.length_map]
      have hle := length_filter_keyMatches_le_one r st.rows hwf
      have hge : 0 < (st.rows.filter (keyMatches r)).length :=
        List.length_pos_of_mem (List.mem_filter.mpr ⟨hmem, hkey⟩)
      omega
    · intro row' hmem' hk
      rw [h2, hrows] at hmem'
      obtain ⟨q, -, rfl⟩ := List.mem_map.mp hmem'
      rw [keyMatches_upsertReplace] at hk
      exact upsertReplace_record r q hk

/-- C1 (witness): upserting the end-to-end scenario's record twice into an
empty store returns the same id twice and leaves exactly one matching
row carrying the record. -/
theorem upsert_idempotent_witness :
    (upsert emptyMedrxiv demoRecord).1 =
      (upsert (upsert emptyMedrxiv demoRecord).2 demoRecord).1 ∧
    ((upsert (upsert emptyMedrxiv demoRecord).2 demoRecord).2.rows.filter
      (keyMatches demoRecord)).length = 1 ∧
    ∀ row ∈ (upsert (upsert emptyMedrxiv demoRecord).2 demoRecord).2.rows,
      keyMatches demoRecord row = true → row.record = demoRecord :=
  upsert_idempotent emptyMedrxiv demoRecord (by decide)

/-- C4 (amended): `missing_summaries` yields exactly the stored `medrxiv`
rows — of any version, current or not — that have no `summaries` row for
the given summary-method id (the anti-join over
`id_publication = m.id AND id_summarymethod = %s`). -/
theorem missing_summaries_membership (m : MedrxivTable) (s : SummariesTable)
    (mid : Nat) (row : PubRow) :
    row ∈ missing_summaries m s mid ↔
      row ∈ m.rows ∧
        ¬∃ srow ∈ s.rows,
          srow.id_publication = row.id ∧ srow.id_summarymethod = mid := by
  rw [missing_summaries, List.mem_filter]
  simp [hasSummaryRow, List.any_eq_true]

/-- C4 (amended, witness): in the two-version table with no summaries, the
version-1 row is yielded because no summary row exists for it. -/
theorem missing_summaries_membership_witness :
    oldRevisionRow ∈ missing_summaries twoVersionTable emptySummaries 1 :=
  (missing_summaries_membership twoVersionTable emptySummaries 1
    oldRevisionRow).mpr ⟨by decide, by simp [emptySummaries]⟩

/-- C8: when the target file is absent and the GET fails (non-success
status or transport exception), `fetch_pdf_from_medrXiv` returns `None`,
raises nothing (the model is total), and persists nothing: the `fulltext`
table and the filesystem are unchanged, exactly as if the fetch had never
been attempted. -/
theorem fetch_pdf_failure_not_persisted (http : String → Option String)
    (pub : PubRef) (dir : String) (st : FetchState) (upsertLink : Bool)
    (hfile : st.files.contains (pdfPath dir pub.doi) = false)
    (hhttp : http (get_pdf_url pub.doi) = none) :
    (fetch_pdf_from_medrXiv http pub dir st upsertLink).1 = none ∧
    (fetch_pdf_from_medrXiv http pub dir st upsertLink).2.fulltext = st.fulltext ∧
    (fetch_pdf_from_medrXiv http pub dir st upsertLink).2.files = st.files := by
  have hnot : pdfPath dir pub.doi ∉ st.files := by simpa using hfile
  simp [fetch_pdf_from_medrXiv, hnot, hhttp]

/-- C8 (witness): a failing transport on an empty world yields `None` and
leaves the link table and filesystem empty. -/
theorem fetch_pdf_failure_not_persisted_witness :
    (fetch_pdf_from_medrXiv alwaysFail demoPubRef "./library" emptyFetchState true).1 = none ∧
    (fetch_pdf_from_medrXiv alwaysFail demoPubRef "./library"
      emptyFetchState true).2.fulltext = emptyFetchState.fulltext ∧
    (fetch_pdf_from_medrXiv alwaysFail demoPubRef "./library"
      emptyFetchState true).2.files = emptyFetchState.files :=
  fetch_pdf_failure_not_persisted alwaysFail demoPubRef "./library"
    emptyFetchState true (by decide) rfl

/-- After the `fulltext` upsert a link row for the publication with the
stored filename is present. -/
theorem fulltextUpsert_has_row (rows : List FulltextRow) (pid : Nat) (name : String) :
    (fulltextUpsert rows pid name).any
      (fun q => q.id_publication == pid && q.pdf_filename == name) = true := by
  unfold fulltextUpsert
  by_cases h : rows.any (fun q => q.id_publication == pid) = true
  · rw [if_pos h]
    obtain ⟨q, hq, hmatch⟩ := List.any_eq_true.mp h
    rw [List.any_eq_true]
    refine ⟨{ q with pdf_filename := name }, ?_, ?_⟩
    · exact List.mem_map.mpr ⟨q, hq, by rw [if_pos hmatch]⟩
    · simp [hmatch]
  · rw [if_neg h, List.any_eq_true]
    exact ⟨{ id_publication := pid, pdf_filename := name },
      List.mem_append_right _ (List.mem_singleton_self _), by simp⟩

/-- C9: when the target file is initially absent and the download succeeds,
two successive `fetch_pdf_from_medrXiv` calls for the same publication
issue exactly one network GET — the second call sees the file on disk and
skips the network entirely — both return the same deterministic path
(sanitized doi), and the `fulltext` link row exists afterwards. -/
theorem fetch_pdf_single_get (http : String → Option String) (pub : PubRef)
    (dir : String) (st : FetchState) (body : String)
    (hfile : st.files.contains (pdfPath dir pub.doi) = false)
    (hhttp : http (get_pdf_url pub.doi) = some body) :
    (fetch_pdf_from_medrXiv http pub dir st).1 = some (pdfPath dir pub.doi) ∧
    (fetch_pdf_from_medrXiv http pub dir
      (fetch_pdf_from_medrXiv http pub dir st).2).1 = some (pdfPath dir pub.doi) ∧
    (fetch_pdf_from_medrXiv http pub dir
      (fetch_pdf_from_medrXiv http pub dir st).2).2.getCount = st.getCount + 1 ∧
    (fetch_pdf_from_medrXiv http pub dir
      (fetch_pdf_from_medrXiv http pub dir st).2).2.fulltext.any
      (fun q => q.id_publication == pub.id && q.pdf_filename == pdfName pub.doi) =
      true := by
  have hnot : pdfPath dir pub.doi ∉ st.files := by simpa using hfile
  have h1 : fetch_pdf_from_medrXiv http pub dir st =
      (some (pdfPath dir pub.doi),
       { files := pdfPath dir pub.doi :: st.files,
         fulltext := fulltextUpsert st.fulltext pub.id (pdfName pub.doi),
         getCount := st.getCount + 1 }) := by
    simp [fetch_pdf_from_medrXiv, hnot, hhttp]
  have h2 : fetch_pdf_from_medrXiv http pub dir
      (fetch_pdf_from_medrXiv http pub dir st).2 =
      (some (pdfPath dir pub.doi),
       { files := pdfPath dir pub.doi :: st.files,
         fulltext := fulltextUpsert
           (fulltextUpsert st.fulltext pub.id (pdfName pub.doi))
           pub.id (pdfName pub.doi),
         getCount := st.getCount + 1 }) := by
    rw [h1]
    simp [fetch_pdf_from_medrXiv]
  rw [h2, h1]
  exact ⟨rfl, rfl, rfl, fulltextUpsert_has_row _ pub.id (pdfName pub.doi)⟩

/-- C9 (witness): from an empty world with a succeeding transport, the
double fetch returns the sanitized path twice while issuing one GET. -/
theorem fetch_pdf_single_get_witness :
    (fetch_pdf_from_medrXiv alwaysSucceed demoPubRef "./library" emptyFetchState).1 =
      some (pdfPath "./library" demoPubRef.doi) ∧
    (fetch_pdf_from_medrXiv alwaysSucceed demoPubRef "./library"
      (fetch_pdf_from_medrXiv alwaysSucceed demoPubRef "./library"
        emptyFetchState).2).1 = some (pdfPath "./library" demoPubRef.doi) ∧
    (fetch_pdf_from_medrXiv alwaysSucceed demoPubRef "./library"
      (fetch_pdf_from_medrXiv alwaysSucceed demoPubRef "./library"
        emptyFetchState).2).2.getCount = emptyFetchState.getCount + 1 ∧
    (fetch_pdf_from_medrXiv alwaysSucceed demoPubRef "./library"
      (fetch_pdf_from_medrXiv alwaysSucceed demoPubRef "./library"
        emptyFetchState).2).2.fulltext.any
      (fun q => q.id_publication == demoPubRef.id &&
        q.pdf_filename == pdfName demoPubRef.doi) = true :=
  fetch_pdf_single_get alwaysSucceed demoPubRef "./library" emptyFetchState
    "%PDF-1.4" (by decide) rfl

/-- The executable "starts with" test agrees with list-append splitting. -/
theorem startsWith_iff (n h : List Char) :
    startsWith n h = true ↔ ∃ t, h = n ++ t := by
  induction n generalizing h with
  | nil => simp [startsWith]
  | cons a as ih =>
    cases h with
    | nil => simp [startsWith]
    | cons b bs =>
      simp only [startsWith, Bool.and_eq_true, beq_iff_eq, ih, List.cons_append,
        List.cons.injEq]
      constructor
      · rintro ⟨rfl, t, rfl⟩
        exact ⟨t, rfl, rfl⟩
      · rintro ⟨t, rfl, rfl⟩
        exact ⟨rfl, t, rfl⟩

/-- The executable substring test agrees with three-way splitting. -/
theorem containsSub_iff (n h : List Char) :
    containsSub n h = true ↔ ∃ l t, h = l ++ (n ++ t) := by
  induction h with
  | nil =>
    rw [containsSub, startsWith_iff]
    constructor
    · rintro ⟨t, ht⟩
      exact ⟨[], t, ht⟩
    · rintro ⟨l, t, ht⟩
      rw [eq_comm, List.append_eq_nil] at ht
      exact ⟨t, ht.2.symm⟩
  | cons c rest ih =>
    rw [containsSub, Bool.or_eq_true, startsWith_iff, ih]
    constructor
    · rintro (⟨t, ht⟩ | ⟨l, t, ht⟩)
      · exact ⟨[], t, ht⟩
      · exact ⟨c :: l, t, by rw [List.cons_append, ht]⟩
    · rintro ⟨l, t, ht⟩
      cases l with
      | nil => exact Or.inl ⟨t, by simpa using ht⟩
      | cons x l' =>
        rw [List.cons_append] at ht
        injection ht with h1 h2
        exact Or.inr ⟨l', t, h2⟩

/-- One SQL `ILIKE '%kw%'` comparison holds exactly when the stripped,
case-folded keyword is a substring of the case-folded field. -/
theorem ilikeKeyword_iff (field kw : String) :
    ilikeKeyword field kw = true ↔ ciSub kw field :=
  containsSub_iff _ _

/-- `ILIKE ANY` over one non-NULL column. -/
theorem ilikeAnyField_iff (f : String) (kws : List String) :
    ilikeAnyField f kws = true ↔ ∃ k ∈ kws, ciSub k f := by
  simp [ilikeAnyField, List.any_eq_true, ilikeKeyword_iff]

/-- `ILIKE ALL` over one non-NULL column. -/
theorem ilikeAllField_iff (f : String) (kws : List String) :
    ilikeAllField f kws = true ↔ ∀ k ∈ kws, ciSub k f := by
  simp [ilikeAllField, List.all_eq_true, ilikeKeyword_iff]

/-- C2 (amended): membership in `search_for` output.  Under `ANY`, a view
row is returned exactly when some keyword matches some of the three
searchable fields — as the claim states.  Under `ALL`, a row is returned
exactly when at least one single field contains every keyword: the three
`ILIKE ALL` disjuncts each apply the whole keyword array to one column, so
keywords may not be distributed across different fields. -/
theorem search_for_membership (view : List SearchRow) (kws : List String)
    (p : SearchRow) :
    (p ∈ search_for view kws MatchMode.any ↔
      p ∈ view ∧ ∃ k ∈ kws,
        ciSub k p.title ∨ ciSub k p.abstract ∨
          ∃ s, p.summary = some s ∧ ciSub k s) ∧
    (p ∈ search_for view kws MatchMode.all ↔
      p ∈ view ∧
        ((∀ k ∈ kws, ciSub k p.title) ∨ (∀ k ∈ kws, ciSub k p.abstract) ∨
          ∃ s, p.summary = some s ∧ ∀ k ∈ kws, ciSub k s)) := by
  constructor
  · rw [search_for, List.mem_filter]
    refine and_congr_right fun _ => ?_
    rcases hs : p.summary with _ | s
    · rw [searchRowMatches]
      simp only [hs, ilikeAnyOpt, Bool.or_eq_true, Bool.or_false,
        ilikeAnyField_iff]
      constructor
      · rintro (⟨k, hk, h⟩ | ⟨k, hk, h⟩)
        · exact ⟨k, hk, Or.inl h⟩
        · exact ⟨k, hk, Or.inr (Or.inl h)⟩
      · rintro ⟨k, hk, h | h | ⟨s, hss, -⟩⟩
        · exact Or.inl ⟨k, hk, h⟩
        · exact Or.inr ⟨k, hk, h⟩
        · cases hss
    · rw [searchRowMatches]
      simp only [hs, ilikeAnyOpt, Bool.or_eq_true, ilikeAnyField_iff,
        Option.some.injEq]
      constructor
      · rintro ((⟨k, hk, h⟩ | ⟨k, hk, h⟩) | ⟨k, hk, h⟩)
        · exact ⟨k, hk, Or.inl h⟩
        · exact ⟨k, hk, Or.inr (Or.inl h)⟩
        · exact ⟨k, hk, Or.inr (Or.inr ⟨s, rfl, h⟩)⟩
      · rintro ⟨k, hk, h | h | ⟨s', hss, h⟩⟩
        · exact Or.inl (Or.inl ⟨k, hk, h⟩)
        · exact Or.inl (Or.inr ⟨k, hk, h⟩)
        · exact Or.inr ⟨k, hk, hss ▸ h⟩
  · rw [search_for, List.mem_filter]
    refine and_congr_right fun _ => ?_
    rcases hs : p.summary with _ | s
    · rw [searchRowMatches]
      simp only [hs, ilikeAllOpt, Bool.or_eq_true, ilikeAllField_iff,
        List.isEmpty_iff]
      constructor
      · rintro ((h | h) | h)
        · exact Or.inl h
        · exact Or.inr (Or.inl h)
        · exact Or.inl (by simp [h])
      · rintro (h | h | ⟨s, hss, -⟩)
        · exact Or.inl (Or.inl h)
        · exact Or.inl (Or.inr h)
        · cases hss
    · rw [searchRowMatches]
      simp only [hs, ilikeAllOpt, Bool.or_eq_true, ilikeAllField_iff,
        Option.some.injEq]
      constructor
      · rintro ((h | h) | h)
        · exact Or.inl h
        · exact Or.inr (Or.inl h)
        · exact Or.inr (Or.inr ⟨s, rfl, h⟩)
      · rintro (h | h | ⟨s', hss, h⟩)
        · exact Or.inl (Or.inl h)
        · exact Or.inl (Or.inr h)
        · exact Or.inr (hss ▸ h)

/-- C2 (amended, witness): the cross-field row is returned by an `ANY`
search for its title keyword. -/
theorem search_for_membership_witness :
    crossFieldRow ∈ search_for [crossFieldRow] ["sepsis"] MatchMode.any :=
  (search_for_membership [crossFieldRow] ["sepsis"] crossFieldRow).1.mpr
    ⟨List.mem_singleton_self _,
     "sepsis", List.mem_singleton_self _,
     Or.inl ⟨[], [], by decide⟩⟩

end MedAiTools
